import Mathlib

/-!
# Order Buddy — order/customer consistency and analytics engine

Shallow embedding of the order-management core of this repository:

* the PostgreSQL trigger functions on `public.orders`
  (`update_order_total`, `set_order_last_activity`, `log_order_activity`)
  and the rollup function `update_customer_stats` on `public.customers`,
  in their final migrated form;
* the client-side order-id assignment of `useOrders.createOrder`;
* the analytics daily series of `AdvancedAnalytics.calculateAnalytics`;
* the export-column handling of `ExportMenu.handleExport`.

Numeric columns (`DECIMAL`/`numeric`) are modelled as `ℚ`, counts as `ℤ`/`ℕ`,
timestamps as `ℕ` instants of a wall clock that never decreases between
successive writes.  SQL `NULL` is modelled with `Option`; SQL three-valued
logic is rendered at each comparison site (a comparison against `NULL` is
not true, so a `WHERE`/`IF` treats it as false).
-/

/-! ## Definitions -/

/-- `status` enum of `public.orders` (CHECK constraint in the migration). -/
inductive Status where
  | draft | pending | approved | processing | shipped
  | delivered | completed | cancelled | refunded
deriving DecidableEq, Repr

/-- The columns of `public.orders` that the modelled trigger functions read
or write.  (Remaining columns — addresses, tags, … — are never touched by
the functions under verification and are omitted.) -/
structure OrderRow where
  id : ℕ
  user_id : ℕ
  customer_name : String
  customer_email : Option String
  order_amount : ℚ
  tax_rate : Option ℚ
  discount_amount : Option ℚ
  total_amount : Option ℚ
  status : Status
  completed_at : Option ℕ
  last_activity_at : Option ℕ
deriving DecidableEq, Repr

/-- Trigger operation (`TG_OP`). -/
inductive TgOp where
  | insert | update | delete
deriving DecidableEq, Repr

/-- `public.calculate_order_total(order_amount, tax_rate, discount_amount)`:
`RETURN order_amount + (order_amount * tax_rate / 100) - discount_amount`. -/
def calculate_order_total (order_amount tax_rate discount_amount : ℚ) : ℚ :=
  order_amount + (order_amount * tax_rate / 100) - discount_amount

/-- SQL condition `NEW.status = 'completed' AND OLD.status != 'completed'`.
In a `BEFORE INSERT` row trigger `OLD` is `NULL`, so `OLD.status` is `NULL`
and the inequality is `NULL`: the `IF` does not fire. -/
def completedTransition (old : Option OrderRow) (new : OrderRow) : Bool :=
  new.status == Status.completed &&
    (match old with
     | some o => o.status != Status.completed
     | none => false)

/-- `public.update_order_total()` (trigger `trigger_update_order_total`,
`BEFORE INSERT OR UPDATE`): recompute `NEW.total_amount` with tax and
discount defaulted to 0 (`COALESCE`), and stamp `NEW.completed_at := now()`
on a status transition into `completed`. -/
def update_order_total (old : Option OrderRow) (new : OrderRow) (now : ℕ) :
    OrderRow :=
  let new1 := { new with
    total_amount := some (calculate_order_total new.order_amount
      (new.tax_rate.getD 0) (new.discount_amount.getD 0)) }
  if completedTransition old new1 then
    { new1 with completed_at := some now }
  else
    new1

/-- `public.set_order_last_activity()` (trigger
`set_order_last_activity_trigger`, `BEFORE INSERT OR UPDATE`, final
recursion-fix migration): on INSERT
`NEW.last_activity_at := COALESCE(NEW.last_activity_at, now())`,
on any UPDATE `NEW.last_activity_at := now()`. -/
def set_order_last_activity (op : TgOp) (new : OrderRow) (now : ℕ) :
    OrderRow :=
  match op with
  | .insert => { new with last_activity_at := some (new.last_activity_at.getD now) }
  | _ => { new with last_activity_at := some now }

/-- The row that becomes durable for a single write to `public.orders`:
both `BEFORE INSERT OR UPDATE` row triggers run, in PostgreSQL's
alphabetical trigger-name order (`set_order_last_activity_trigger` before
`trigger_update_order_total`). -/
def persistRow (op : TgOp) (old : Option OrderRow) (new : OrderRow)
    (now : ℕ) : OrderRow :=
  update_order_total old (set_order_last_activity op new now) now

/-- One `public.order_activities` row (`old_values` / `new_values` are the
`to_jsonb` snapshots of whole order rows). -/
structure Activity where
  order_id : ℕ
  user_id : ℕ
  activity_type : String
  description : String
  old_values : Option OrderRow
  new_values : Option OrderRow
deriving DecidableEq, Repr

/-- The two tables the write path touches. -/
structure DB where
  orders : List OrderRow
  activities : List Activity
deriving DecidableEq, Repr

/-- `public.log_order_activity()` in its final (recursion-fix) form:
an `AFTER INSERT OR UPDATE` trigger that only appends to
`public.order_activities` — one `'created'` row with the new snapshot on
INSERT, one `'updated'` row with old and new snapshots on UPDATE — and
does not write to `public.orders` at all. -/
def log_order_activity (op : TgOp) (old : Option OrderRow) (new : OrderRow)
    (db : DB) : DB :=
  match op with
  | .insert =>
      { db with activities :=
          ⟨new.id, new.user_id, "created", "Order created", none, some new⟩
            :: db.activities }
  | .update =>
      { db with activities :=
          ⟨new.id, new.user_id, "updated", "Order updated", old, some new⟩
            :: db.activities }
  | .delete => db

/-- A complete `INSERT` into `public.orders`: `BEFORE` triggers shape the
row, the row is persisted, then the `AFTER` logging trigger appends the
audit entry. -/
def insertOrder (db : DB) (new : OrderRow) (now : ℕ) : DB :=
  let r := persistRow .insert none new now
  log_order_activity .insert none r { db with orders := r :: db.orders }

/-- A complete `UPDATE` of one row of `public.orders` (the client proposes
`new` for the row currently equal to `old`). -/
def updateOrder (db : DB) (old new : OrderRow) (now : ℕ) : DB :=
  let r := persistRow .update (some old) new now
  log_order_activity .update (some old) r
    { db with orders := db.orders.map (fun x => if x.id == old.id then r else x) }

/-- The spec's total formula, stated once for reuse. -/
def specTotal (new : OrderRow) : ℚ :=
  new.order_amount + new.order_amount * (new.tax_rate.getD 0) / 100
    - (new.discount_amount.getD 0)

/-- A concrete order row: amount 10, no tax, discount 20, so the total
must be −10. -/
def exRowC1 : OrderRow :=
  ⟨1, 1, "Ann", none, 10, none, some 20, none, .pending, none, none⟩

/-- A row inserted directly in status `completed`, with no client-supplied
`completed_at`. -/
def exRowC2 : OrderRow :=
  ⟨2, 1, "Bob", none, 5, none, none, none, .completed, none, none⟩

/-- A client update that changes only `status` (all other columns, in
particular `completed_at`, keep the row's current values), followed by the
`BEFORE` triggers. -/
def stepStatus (r : OrderRow) (s : Status) (t : ℕ) : OrderRow :=
  persistRow .update (some r) { r with status := s } t

/-- A sequence of status-only updates applied to a persisted row. -/
def runStatusUpdates (r : OrderRow) (us : List (Status × ℕ)) : OrderRow :=
  us.foldl (fun cur p => stepStatus cur p.1 p.2) r

/-- A `public.customers` row (rollup-relevant columns). -/
structure CustomerRow where
  id : ℕ
  user_id : ℕ
  name : String
  email : Option String
  total_orders : ℤ
  total_spent : ℚ
deriving DecidableEq, Repr

/-- SQL equality on nullable text: `a = b` is true only when both sides are
non-`NULL` and equal. -/
def sqlStrEq (a b : Option String) : Bool :=
  match a, b with
  | some x, some y => x == y
  | _, _ => false

/-- The `WHERE` clause of each statement in `update_customer_stats`:
`user_id = r.user_id AND (name = r.customer_name OR email = r.customer_email)`. -/
def custMatches (r : OrderRow) (c : CustomerRow) : Bool :=
  c.user_id == r.user_id &&
    (c.name == r.customer_name || sqlStrEq c.email r.customer_email)

/-- `UPDATE customers SET total_orders = total_orders + 1,
total_spent = total_spent + r.order_amount WHERE …` — a SQL `UPDATE`
applies to every row satisfying the `WHERE` clause. -/
def custStatsInc (r : OrderRow) (custs : List CustomerRow) : List CustomerRow :=
  custs.map (fun c =>
    if custMatches r c then
      { c with total_orders := c.total_orders + 1,
               total_spent := c.total_spent + r.order_amount }
    else c)

/-- `UPDATE customers SET total_orders = total_orders - 1,
total_spent = total_spent - r.order_amount WHERE …`. -/
def custStatsDec (r : OrderRow) (custs : List CustomerRow) : List CustomerRow :=
  custs.map (fun c =>
    if custMatches r c then
      { c with total_orders := c.total_orders - 1,
               total_spent := c.total_spent - r.order_amount }
    else c)

/-- `public.update_customer_stats()`: on INSERT bump the matching
customers by `NEW`; on UPDATE decrement by `OLD` then increment by `NEW`;
on DELETE decrement by `OLD`.  (Branches with a `NULL` row record cannot
arise in a row trigger and leave the table unchanged.) -/
def update_customer_stats (op : TgOp) (old new : Option OrderRow)
    (custs : List CustomerRow) : List CustomerRow :=
  match op with
  | .insert =>
      match new with
      | some n => custStatsInc n custs
      | none => custs
  | .update =>
      match old, new with
      | some o, some n => custStatsInc n (custStatsDec o custs)
      | _, _ => custs
  | .delete =>
      match old with
      | some o => custStatsDec o custs
      | none => custs

/-- Two customers of owner 1, both named "Ann" with no email recorded, both
with zero rollups. -/
def custA : CustomerRow := ⟨10, 1, "Ann", none, 0, 0⟩

/-- Second customer with the same name as `custA` (distinct row id). -/
def custB : CustomerRow := ⟨11, 1, "Ann", none, 0, 0⟩

/-- An order of owner 1 for customer name "Ann" (amount 7). -/
def exRowC4 : OrderRow :=
  ⟨4, 1, "Ann", none, 7, none, none, none, .pending, none, none⟩

/-- The order `exRowC4` with its amount changed from 7 to 9. -/
def exRowC5 : OrderRow := { exRowC4 with order_amount := 9 }

/-- An insert carrying the client-supplied `last_activity_at = 100`. -/
def exRowC7 : OrderRow :=
  ⟨7, 1, "Di", none, 5, none, none, none, .pending, none, some 100⟩

/-- An order as seen by the client-side analytics: `orderDate` is the local
calendar day (day number). -/
structure AOrder where
  orderDate : ℤ
  totalAmount : Option ℚ
  orderAmount : ℚ
deriving DecidableEq, Repr

/-- The code keys buckets by `format(date, "MMM dd")` — a month-and-day
label with no year, which repeats every year.  Modelled as the day number
modulo a 365-day year: distinct days of any window shorter than a year get
distinct labels, while a day and the same date one year later share one
(a leap day only creates further collisions, never fewer). -/
def dayLabel (d : ℤ) : ℤ :=
  d % 365

/-- JS `order.totalAmount || order.orderAmount`: falls back when
`totalAmount` is absent or zero (both are falsy). -/
def jsRevenue (o : AOrder) : ℚ :=
  match o.totalAmount with
  | some t => if t = 0 then o.orderAmount else t
  | none => o.orderAmount

/-- One `dailyData` bucket: `{ revenue, orders }`. -/
structure Bucket where
  revenue : ℚ
  orders : ℕ
deriving DecidableEq, Repr

/-- `dailyData[dateStr].revenue += …; dailyData[dateStr].orders += 1`. -/
def bumpBucket (o : AOrder) (b : Bucket) : Bucket :=
  ⟨b.revenue + jsRevenue o, b.orders + 1⟩

/-- The initialisation loop: for `i = 0 .. daysBack-1` create a zero bucket
keyed by `subDays(now, i)`; JS object string keys keep insertion order. -/
def initDaily (now : ℤ) (N : ℕ) : List (ℤ × Bucket) :=
  (List.range N).map (fun (i : ℕ) => (now - (i : ℤ), ⟨0, 0⟩))

/-- The accumulation loop body: `if (dailyData[dateStr]) { … }` — the
bucket is mutated exactly when the order's year-less `"MMM dd"` label is an
existing key; the windows in use (≤ 90 days) give every bucket a distinct
label, so at most one entry matches. -/
def addOrder (l : List (ℤ × Bucket)) (o : AOrder) : List (ℤ × Bucket) :=
  if l.any (fun e => dayLabel e.1 == dayLabel o.orderDate) then
    l.map (fun e =>
      if dayLabel e.1 = dayLabel o.orderDate then (e.1, bumpBucket o e.2)
      else e)
  else l

/-- `dailyRevenue` of `calculateAnalytics`: filter to
`orderDate >= subDays(now, daysBack)` (a lower bound only — there is no
upper bound on the date), accumulate into the buckets, then `.reverse()`
the entries into ascending order. -/
def dailyRevenue (orders : List AOrder) (now : ℤ) (N : ℕ) :
    List (ℤ × Bucket) :=
  ((orders.filter (fun o => decide (now - N ≤ o.orderDate))).foldl addOrder
    (initDaily now N)).reverse

/-- An order dated one year after day −3 of the week ending at day 0
(day 362 = −3 + 365): it passes the lower-bound-only window filter and its
year-less label collides with the window day −3. -/
def aliasOrder : AOrder := ⟨362, none, 5⟩

/-- The `ExportOptions` value `handleExport` hands to `onExport`. -/
structure ExportCall where
  format : String
  columns : List String
deriving DecidableEq, Repr

/-- `ExportMenu.handleExport`: with an empty column selection it shows a
destructive toast and returns without invoking `onExport` (no export
output); otherwise it invokes `onExport` with the selected format and the
selected columns, in order. -/
def handleExport (format : String) (selectedColumns : List String) :
    Option ExportCall :=
  if selectedColumns.length = 0 then none
  else some ⟨format, selectedColumns⟩

/-- Modelled from the spec: the consumer of `ExportMenu`'s `onExport` (the
column-driven serializer) is not part of the sources; per §4.5/§6 it
produces "a flat tabular serialization (header row from selected keys, one
data row per order, values taken verbatim)".  A row is the order's opaque
field map; the table is the header followed by one row of the selected
fields per order, in selection order. -/
def exportTable (columns : List String) (rows : List (String → String)) :
    List (List String) :=
  columns :: rows.map (fun r => columns.map r)

/-- Decimal digits of `n`, least significant first, with explicit fuel so
the kernel can evaluate it (`fuel ≥ n` suffices). -/
def decDigitsAux : ℕ → ℕ → List ℕ
  | 0, _ => []
  | _ + 1, 0 => []
  | fuel + 1, m + 1 => ((m + 1) % 10) :: decDigitsAux fuel ((m + 1) / 10)

/-- Decimal digits of `n`, least significant first. -/
def decDigits (n : ℕ) : List ℕ := decDigitsAux n n

/-- The characters of JS `String(n)` (decimal, most significant first). -/
def decChars (n : ℕ) : List Char :=
  (decDigits n).reverse.map (fun d => Char.ofNat (48 + d))

/-- JS `.padStart(3, '0')`. -/
def pad3 (cs : List Char) : List Char :=
  List.replicate (3 - cs.length) '0' ++ cs

/-- `useOrders.createOrder`:
`` orderId = `ORD-${String(orderCount + 1).padStart(3, '0')}` ``. -/
def mkOrderId (n : ℕ) : String :=
  String.mk ('O' :: 'R' :: 'D' :: '-' :: pad3 (decChars n))

/-- `createOrder` id bookkeeping: `orderCount = orders.length`, the new
order is built with `mkOrderId (orderCount + 1)` and prepended
(`setOrders(prev => [newOrder, ...prev])`).  The in-memory state is
tracked by its `orderId`s. -/
def createStep (orders : List String) : List String :=
  mkOrderId (orders.length + 1) :: orders

/-- `deleteOrder`: `prev.filter(order => order.orderId !== orderId)`. -/
def deleteStep (orderId : String) (orders : List String) : List String :=
  orders.filter (fun o => o != orderId)

/-- The in-memory order list after `n` creations and no deletions. -/
def ordersAfter : ℕ → List String
  | 0 => []
  | n + 1 => createStep (ordersAfter n)

/-- Numeric value of a digit character. -/
def charVal (c : Char) : ℕ := c.toNat - 48

/-- Read a most-significant-first digit-character list back as a number. -/
def recoverNat (cs : List Char) : ℕ :=
  Nat.ofDigits 10 (cs.reverse.map charVal)

/-! ## Theorems -/

/-- C1.  For every order insert or update, the persisted `total_amount`
equals `order_amount + order_amount*tax_rate/100 - discount_amount` with
absent `tax_rate`/`discount_amount` treated as 0, and no clamping: when the
discount exceeds the subtotal the persisted total is negative. -/
theorem persisted_total_amount_formula (op : TgOp) (old : Option OrderRow)
    (new : OrderRow) (now : ℕ) :
    (persistRow op old new now).total_amount = some (specTotal new) ∧
    (new.order_amount + new.order_amount * (new.tax_rate.getD 0) / 100 <
        new.discount_amount.getD 0 →
      ∃ v, (persistRow op old new now).total_amount = some v ∧ v < 0) := by
  constructor
  · cases op <;>
      simp [persistRow, update_order_total, set_order_last_activity,
        calculate_order_total, specTotal] <;>
      split <;> rfl
  · intro h
    refine ⟨specTotal new, ?_, ?_⟩
    · cases op <;>
        simp [persistRow, update_order_total, set_order_last_activity,
          calculate_order_total, specTotal] <;>
        split <;> rfl
    · unfold specTotal
      linarith

/-- Witness for C1 at a concrete input with discount exceeding subtotal. -/
theorem persisted_total_amount_formula_witness :
    (persistRow .insert none exRowC1 5).total_amount = some (specTotal exRowC1) ∧
    ∃ v, (persistRow .insert none exRowC1 5).total_amount = some v ∧ v < 0 := by
  refine ⟨(persisted_total_amount_formula .insert none exRowC1 5).1, ?_⟩
  exact (persisted_total_amount_formula .insert none exRowC1 5).2 (by norm_num [exRowC1])

/-- How a single write changes `completed_at`: stamped with `now` exactly
when the write is an update whose status enters `completed` from a
different status; otherwise the incoming value is passed through. -/
theorem persistRow_completed_at (op : TgOp) (old : Option OrderRow)
    (new : OrderRow) (now : ℕ) :
    (persistRow op old new now).completed_at =
      if completedTransition old new then some now else new.completed_at := by
  cases op <;>
    simp [persistRow, update_order_total, set_order_last_activity,
      completedTransition] <;>
    split <;> simp_all

/-- Counterexample to C2 as stated: on the insert of `exRowC2` the status
transitions into `completed` (there was no order before), yet the persisted
`completed_at` is not set — `OLD` is SQL `NULL` in the `BEFORE INSERT`
trigger, so `OLD.status != 'completed'` is `NULL` and the stamping branch
does not fire.  The claim demands `completed_at = some 5` here. -/
theorem completed_at_not_stamped_at_creation :
    (persistRow .insert none exRowC2 5).status = Status.completed ∧
    (persistRow .insert none exRowC2 5).completed_at = none := by
  constructor <;> rfl

theorem stepStatus_status (r : OrderRow) (s : Status) (t : ℕ) :
    (stepStatus r s t).status = s := by
  simp [stepStatus, persistRow, update_order_total, set_order_last_activity]
  split <;> rfl

theorem stepStatus_completed_at (r : OrderRow) (s : Status) (t : ℕ) :
    (stepStatus r s t).completed_at =
      if s = Status.completed ∧ r.status ≠ Status.completed then some t
      else r.completed_at := by
  rw [stepStatus, persistRow_completed_at]
  simp [completedTransition, set_order_last_activity]

theorem runStatusUpdates_noncompleted (r : OrderRow)
    (us : List (Status × ℕ)) (hr : r.status ≠ Status.completed)
    (hus : ∀ p ∈ us, p.1 ≠ Status.completed) :
    (runStatusUpdates r us).status ≠ Status.completed ∧
    (runStatusUpdates r us).completed_at = r.completed_at := by
  induction us generalizing r with
  | nil => exact ⟨hr, rfl⟩
  | cons p us ih =>
      have hp : p.1 ≠ Status.completed := hus p (List.mem_cons_self p us)
      have h1 : (stepStatus r p.1 p.2).status ≠ Status.completed := by
        rw [stepStatus_status]; exact hp
      have h2 : (stepStatus r p.1 p.2).completed_at = r.completed_at := by
        rw [stepStatus_completed_at]
        simp [hp]
      have := ih (stepStatus r p.1 p.2) h1
        (fun q hq => hus q (List.mem_cons_of_mem p hq))
      simpa [runStatusUpdates, h2] using this

theorem runStatusUpdates_stay_completed (r : OrderRow)
    (us : List (Status × ℕ)) (hr : r.status = Status.completed)
    (hus : ∀ p ∈ us, p.1 = Status.completed) :
    (runStatusUpdates r us).completed_at = r.completed_at := by
  induction us generalizing r with
  | nil => rfl
  | cons p us ih =>
      have hp : p.1 = Status.completed := hus p (List.mem_cons_self p us)
      have h1 : (stepStatus r p.1 p.2).status = Status.completed := by
        rw [stepStatus_status]; exact hp
      have h2 : (stepStatus r p.1 p.2).completed_at = r.completed_at := by
        rw [stepStatus_completed_at]
        simp [hr]
      have := ih (stepStatus r p.1 p.2) h1
        (fun q hq => hus q (List.mem_cons_of_mem p hq))
      simpa [runStatusUpdates, h2] using this

/-- C2 (amended).  `completed_at` is stamped exactly on the update whose
status transitions into `completed` from a non-`completed` value, and is
left untouched by subsequent writes while status remains `completed`; it is
never stamped by an insert, even one created directly in status
`completed` (and it is never cleared: the non-transition writes pass the
incoming value through, per `persistRow_completed_at`). -/
theorem completed_at_stamped_on_transition (r : OrderRow)
    (us1 : List (Status × ℕ)) (t : ℕ) (us2 : List (Status × ℕ))
    (hr : r.status ≠ Status.completed)
    (h1 : ∀ p ∈ us1, p.1 ≠ Status.completed)
    (h2 : ∀ p ∈ us2, p.1 = Status.completed) :
    (runStatusUpdates r (us1 ++ (Status.completed, t) :: us2)).completed_at
        = some t ∧
    ∀ new now, (persistRow .insert none new now).completed_at =
      new.completed_at := by
  constructor
  · have hmid := runStatusUpdates_noncompleted r us1 hr h1
    have hfold : runStatusUpdates r (us1 ++ (Status.completed, t) :: us2) =
        runStatusUpdates
          (stepStatus (runStatusUpdates r us1) Status.completed t) us2 := by
      simp [runStatusUpdates, List.foldl_append]
    rw [hfold]
    have hstep : (stepStatus (runStatusUpdates r us1) Status.completed t).completed_at
        = some t := by
      rw [stepStatus_completed_at]
      simp [hmid.1]
    have hstepstatus :
        (stepStatus (runStatusUpdates r us1) Status.completed t).status =
          Status.completed := stepStatus_status _ _ _
    rw [runStatusUpdates_stay_completed _ us2 hstepstatus h2, hstep]
  · intro new now
    rw [persistRow_completed_at]
    simp [completedTransition]

/-- Witness for the amended C2: a pending order, one non-completed update,
the completing update at time 2, then one further completed write. -/
theorem completed_at_stamped_on_transition_witness :
    (runStatusUpdates
        ⟨3, 1, "Cy", none, 1, none, none, none, .pending, none, none⟩
        ([(Status.approved, 1)] ++ (Status.completed, 2) ::
          [(Status.completed, 3)])).completed_at = some 2 ∧
    ∀ new now, (persistRow .insert none new now).completed_at =
      new.completed_at := by
  exact completed_at_stamped_on_transition
    ⟨3, 1, "Cy", none, 1, none, none, none, .pending, none, none⟩
    [(Status.approved, 1)] 2 [(Status.completed, 3)]
    (by decide) (by decide) (by decide)

theorem custMatches_inc (r r' : OrderRow) (c : CustomerRow) :
    custMatches r (if custMatches r' c then
      { c with total_orders := c.total_orders + 1,
               total_spent := c.total_spent + r'.order_amount }
      else c) = custMatches r c := by
  split <;> simp [custMatches]

theorem custMatches_dec (r r' : OrderRow) (c : CustomerRow) :
    custMatches r (if custMatches r' c then
      { c with total_orders := c.total_orders - 1,
               total_spent := c.total_spent - r'.order_amount }
      else c) = custMatches r c := by
  split <;> simp [custMatches]

/-- C3.  Inserting an order and then deleting the very same order returns
every customer's `total_orders`/`total_spent` to their pre-insert values
(the rollup is symmetric under insert+delete). -/
theorem rollup_insert_delete_roundtrip (r : OrderRow)
    (custs : List CustomerRow) :
    update_customer_stats .delete (some r) none
      (update_customer_stats .insert none (some r) custs) = custs := by
  simp only [update_customer_stats, custStatsInc, custStatsDec, List.map_map]
  have h : ∀ c : CustomerRow,
      ((fun c =>
          if custMatches r c then
            { c with total_orders := c.total_orders - 1,
                     total_spent := c.total_spent - r.order_amount }
          else c) ∘ (fun c =>
          if custMatches r c then
            { c with total_orders := c.total_orders + 1,
                     total_spent := c.total_spent + r.order_amount }
          else c)) c = c := by
    intro c
    simp only [Function.comp]
    rw [custMatches_inc]
    by_cases hm : custMatches r c
    · simp [hm]
    · simp [hm]
  rw [List.map_congr_left (fun c _ => h c)]
  simp

/-- Counterexample to C4 as stated: with two customers of the same owner
matching the order's name, one insert bumps the rollups of BOTH customer
rows (`total_orders` goes 0 → 1 on each), not just the first match —
the rollup `UPDATE` has no `LIMIT 1`, so more than one customer changes. -/
theorem rollup_insert_changes_two_customers :
    (update_customer_stats .insert none (some exRowC4) [custA, custB]).map
        (fun c => c.total_orders) = [1, 1] ∧
    [custA, custB].map (fun c => c.total_orders) = [0, 0] := by
  constructor <;> decide

/-- C4 (amended).  The Customer Rollup applies its insert adjustment to
every customer row matching the order's owner and name-or-email — possibly
more than one — and leaves every non-matching row unchanged. -/
theorem rollup_insert_adjusts_every_match (r : OrderRow)
    (custs : List CustomerRow) (c : CustomerRow) (hc : c ∈ custs) :
    (custMatches r c = true →
      { c with total_orders := c.total_orders + 1,
               total_spent := c.total_spent + r.order_amount } ∈
        update_customer_stats .insert none (some r) custs) ∧
    (custMatches r c = false →
      c ∈ update_customer_stats .insert none (some r) custs) := by
  constructor
  · intro hm
    simp only [update_customer_stats, custStatsInc]
    have := List.mem_map_of_mem (fun c =>
      if custMatches r c then
        { c with total_orders := c.total_orders + 1,
                 total_spent := c.total_spent + r.order_amount }
      else c) hc
    simpa [hm] using this
  · intro hm
    simp only [update_customer_stats, custStatsInc]
    have := List.mem_map_of_mem (fun c =>
      if custMatches r c then
        { c with total_orders := c.total_orders + 1,
                 total_spent := c.total_spent + r.order_amount }
      else c) hc
    simpa [hm] using this

/-- Witness for the amended C4 at `custA ∈ [custA, custB]`, which matches
`exRowC4`. -/
theorem rollup_insert_adjusts_every_match_witness :
    custMatches exRowC4 custA = true ∧
    { custA with total_orders := custA.total_orders + 1,
                 total_spent := custA.total_spent + exRowC4.order_amount } ∈
      update_customer_stats .insert none (some exRowC4) [custA, custB] := by
  refine ⟨by decide, ?_⟩
  exact (rollup_insert_adjusts_every_match exRowC4 [custA, custB] custA
    (by decide)).1 (by decide)

/-- C5.  An order update that keeps the matched identity (owner, name,
email) and changes `order_amount` from A to B changes every matched
customer's `total_spent` by exactly B − A and leaves `total_orders`
unchanged; non-matching customers are untouched. -/
theorem rollup_update_amount_delta (o n : OrderRow)
    (custs : List CustomerRow)
    (huid : o.user_id = n.user_id)
    (hname : o.customer_name = n.customer_name)
    (hemail : o.customer_email = n.customer_email) :
    update_customer_stats .update (some o) (some n) custs =
      custs.map (fun c =>
        if custMatches n c then
          { c with total_spent := c.total_spent +
              (n.order_amount - o.order_amount) }
        else c) := by
  have hmatch : ∀ c, custMatches o c = custMatches n c := by
    intro c
    simp [custMatches, huid, hname, hemail]
  simp only [update_customer_stats, custStatsInc, custStatsDec, List.map_map]
  refine List.map_congr_left (fun c _ => ?_)
  simp only [Function.comp]
  rw [custMatches_dec, hmatch]
  by_cases hm : custMatches n c
  · simp only [hm, if_pos]
    congr 1 <;> ring
  · simp [hm]

/-- Witness for C5: amount changes 7 → 9, so matched customers gain 2 in
`total_spent` with `total_orders` unchanged. -/
theorem rollup_update_amount_delta_witness :
    update_customer_stats .update (some exRowC4) (some exRowC5)
        [custA, custB] =
      [custA, custB].map (fun c =>
        if custMatches exRowC5 c then
          { c with total_spent := c.total_spent +
              (exRowC5.order_amount - exRowC4.order_amount) }
        else c) := by
  exact rollup_update_amount_delta exRowC4 exRowC5 [custA, custB]
    rfl rfl rfl

/-- C6.  Every successful insert appends exactly one activity row, of type
`'created'`, with no old snapshot and a snapshot of the persisted new
state; every successful update appends exactly one row of type `'updated'`
with both snapshots; and `log_order_activity` itself never writes to the
orders table (so the logger's own write cannot re-fire the order triggers,
which are attached to `public.orders`, nor the logger itself, since no
trigger is attached to `public.order_activities`). -/
theorem persistRow_id (op : TgOp) (old : Option OrderRow) (new : OrderRow)
    (now : ℕ) : (persistRow op old new now).id = new.id := by
  cases op <;>
    simp [persistRow, update_order_total, set_order_last_activity] <;>
    split <;> rfl

theorem persistRow_user_id (op : TgOp) (old : Option OrderRow)
    (new : OrderRow) (now : ℕ) :
    (persistRow op old new now).user_id = new.user_id := by
  cases op <;>
    simp [persistRow, update_order_total, set_order_last_activity] <;>
    split <;> rfl

theorem activity_log_exactly_one_row :
    (∀ (db : DB) (new : OrderRow) (now : ℕ),
      (insertOrder db new now).activities =
        ⟨new.id, new.user_id, "created", "Order created", none,
          some (persistRow .insert none new now)⟩ :: db.activities) ∧
    (∀ (db : DB) (old new : OrderRow) (now : ℕ),
      (updateOrder db old new now).activities =
        ⟨new.id, new.user_id, "updated", "Order updated", some old,
          some (persistRow .update (some old) new now)⟩ :: db.activities) ∧
    (∀ (op : TgOp) (old : Option OrderRow) (new : OrderRow) (db : DB),
      (log_order_activity op old new db).orders = db.orders) := by
  refine ⟨?_, ?_, ?_⟩
  · intro db new now
    simp only [insertOrder, log_order_activity]
    rw [persistRow_id, persistRow_user_id]
  · intro db old new now
    simp only [updateOrder, log_order_activity]
    rw [persistRow_id, persistRow_user_id]
  · intro op old new db
    cases op <;> rfl

theorem persistRow_last_activity_update (old : Option OrderRow)
    (new : OrderRow) (now : ℕ) :
    (persistRow .update old new now).last_activity_at = some now := by
  simp [persistRow, update_order_total, set_order_last_activity]
  split <;> rfl

theorem persistRow_last_activity_insert (new : OrderRow) (now : ℕ) :
    (persistRow .insert none new now).last_activity_at =
      some (new.last_activity_at.getD now) := by
  simp [persistRow, update_order_total, set_order_last_activity]
  split <;> rfl

/-- Counterexample to C7 as stated: insert `exRowC7` at wall time 10 —
`COALESCE` keeps the client-supplied value 100 — then update the persisted
row at the later wall time 20: the stored `last_activity_at` DROPS from
100 to 20, so it is not monotone when the insert carries a client-supplied
future value. -/
theorem last_activity_not_monotone_with_client_value :
    (persistRow .insert none exRowC7 10).last_activity_at = some 100 ∧
    (persistRow .update (some (persistRow .insert none exRowC7 10))
        (persistRow .insert none exRowC7 10) 20).last_activity_at =
      some 20 ∧ (20 : ℕ) < 100 := by
  refine ⟨rfl, ?_, by decide⟩
  exact persistRow_last_activity_update _ _ _

/-- C7 (amended).  Every update stamps the write's wall time, so for two
successive writes at times `t₁ ≤ t₂` the stored `last_activity_at` is
monotone whenever the earlier stored value does not exceed `t₂` — in
particular always between two updates, and after an insert provided any
client-supplied `last_activity_at` is at most the next write's time (an
insert without a client value stores its own wall time `t₁ ≤ t₂`). -/
theorem last_activity_monotone (old₁ : Option OrderRow)
    (r₁ new₁ new₂ : OrderRow) (t₁ t₂ : ℕ)
    (ht : t₁ ≤ t₂)
    (hsup : ∀ v, new₁.last_activity_at = some v → v ≤ t₂) :
    ((persistRow .insert none new₁ t₁).last_activity_at.getD 0 ≤
      (persistRow .update (some (persistRow .insert none new₁ t₁)) new₂
        t₂).last_activity_at.getD 0) ∧
    ((persistRow .update old₁ r₁ t₁).last_activity_at.getD 0 ≤
      (persistRow .update (some (persistRow .update old₁ r₁ t₁)) new₂
        t₂).last_activity_at.getD 0) := by
  constructor
  · rw [persistRow_last_activity_insert, persistRow_last_activity_update]
    cases hv : new₁.last_activity_at with
    | none => simpa [hv] using ht
    | some v => simpa [hv] using hsup v hv
  · rw [persistRow_last_activity_update, persistRow_last_activity_update]
    simpa using ht

/-- Witness for the amended C7: an insert with no client value at time 3,
updated at time 8, and an update chain 3 then 8. -/
theorem last_activity_monotone_witness :
    ((persistRow .insert none exRowC1 3).last_activity_at.getD 0 ≤
      (persistRow .update (some (persistRow .insert none exRowC1 3)) exRowC1
        8).last_activity_at.getD 0) ∧
    ((persistRow .update none exRowC1 3).last_activity_at.getD 0 ≤
      (persistRow .update (some (persistRow .update none exRowC1 3)) exRowC1
        8).last_activity_at.getD 0) := by
  exact last_activity_monotone none exRowC1 exRowC1 exRowC1 3 8
    (by decide) (by intro v hv; cases hv)

theorem foldl_addOrder_map (os : List AOrder) (keys : List ℤ)
    (f : ℤ → Bucket) :
    os.foldl addOrder (keys.map fun d => (d, f d)) =
      keys.map fun d => (d,
        os.foldl (fun b o =>
          if dayLabel o.orderDate = dayLabel d then bumpBucket o b else b)
          (f d)) := by
  induction os generalizing f with
  | nil => simp
  | cons o os ih =>
      have hstep : addOrder (keys.map fun d => (d, f d)) o =
          keys.map fun d =>
            (d, if dayLabel o.orderDate = dayLabel d then bumpBucket o (f d)
                else f d) := by
        unfold addOrder
        by_cases hmem : ∃ d ∈ keys, dayLabel d = dayLabel o.orderDate
        · have hany : (keys.map fun d => (d, f d)).any
              (fun e => dayLabel e.1 == dayLabel o.orderDate) = true := by
            rcases hmem with ⟨d, hd, hdeq⟩
            simp only [List.any_eq_true, List.mem_map]
            exact ⟨(d, f d), ⟨d, hd, rfl⟩, by simp [hdeq]⟩
          rw [if_pos hany, List.map_map]
          refine List.map_congr_left (fun d _ => ?_)
          simp only [Function.comp]
          by_cases hd : dayLabel d = dayLabel o.orderDate
          · simp only [if_pos hd, if_pos hd.symm]
          · have hd2 : ¬ dayLabel o.orderDate = dayLabel d :=
              fun h => hd h.symm
            simp [hd, hd2]
        · have hany : (keys.map fun d => (d, f d)).any
              (fun e => dayLabel e.1 == dayLabel o.orderDate) = false := by
            simp only [List.any_eq_false, List.mem_map]
            rintro e ⟨d, hd, rfl⟩
            simp only [beq_iff_eq]
            exact fun h => hmem ⟨d, hd, h⟩
          rw [if_neg (by simp [hany])]
          refine List.map_congr_left (fun d hd => ?_)
          have hne : ¬ dayLabel o.orderDate = dayLabel d :=
            fun h => hmem ⟨d, hd, h.symm⟩
          simp [hne]
      rw [List.foldl_cons, hstep, ih]
      refine List.map_congr_left (fun d _ => ?_)
      simp [List.foldl_cons]

theorem foldl_bump_of_no_match (os : List AOrder) (d : ℤ) (b : Bucket)
    (h : ∀ o ∈ os, dayLabel o.orderDate ≠ dayLabel d) :
    os.foldl (fun b o =>
        if dayLabel o.orderDate = dayLabel d then bumpBucket o b else b) b
      = b := by
  induction os generalizing b with
  | nil => rfl
  | cons o os ih =>
      have ho : dayLabel o.orderDate ≠ dayLabel d :=
        h o (List.mem_cons_self o os)
      rw [List.foldl_cons, if_neg ho]
      exact ih b (fun q hq => h q (List.mem_cons_of_mem o hq))

theorem initDaily_eq_map (now : ℤ) (N : ℕ) :
    initDaily now N =
      ((List.range N).map (fun (i : ℕ) => now - (i : ℤ))).map
        (fun d => (d, (⟨0, 0⟩ : Bucket))) := by
  simp [initDaily, List.map_map, Function.comp]

theorem reverse_day_keys (now : ℤ) (N : ℕ) :
    ((List.range N).map (fun (i : ℕ) => now - (i : ℤ))).reverse =
      (List.range N).map (fun (i : ℕ) => now - ((N : ℤ) - 1) + (i : ℤ)) := by
  apply List.ext_getElem
  · simp
  · intro i h1 h2
    simp only [List.length_reverse, List.length_map, List.length_range] at h1 h2
    rw [List.getElem_reverse]
    simp only [List.getElem_map, List.getElem_range, List.length_map,
      List.length_range]
    omega

/-- Counterexample to C8 as stated: with `now = 0` and the 7-day window,
the single order `aliasOrder` is dated day 362 — one year after window day
−3 — so no order falls on day −3; yet the order passes the
lower-bound-only filter (`362 ≥ −7`), its year-less `"MMM dd"` label
equals that of day −3, and the day −3 bucket ends with order count 1 (and
the order's revenue) instead of staying zero. -/
theorem daily_series_zero_fill_fails :
    (∀ o ∈ [aliasOrder], o.orderDate ≠ (-3 : ℤ)) ∧
    (dailyRevenue [aliasOrder] 0 7).map (fun e => (e.1, e.2.orders)) =
      [(-6, 0), (-5, 0), (-4, 0), (-3, 1), (-2, 0), (-1, 0), (0, 0)] := by
  constructor <;> decide

/-- C8 (amended).  For every order collection, reference day `now` and
window size `N ∈ {7, 30, 90}`, the daily series has exactly `N` entries,
keyed by the `N` calendar days of the window in ascending chronological
order with each date appearing exactly once; an entry is the zero bucket
whenever no order within the filter range (dates ≥ `now − N`, with no
upper bound) carries its day's year-less `"MMM dd"` label — in particular
a day with no orders can still receive revenue from a future-dated order
whose label collides with it. -/
theorem daily_series_shape (orders : List AOrder) (now : ℤ) (N : ℕ)
    (hN : N = 7 ∨ N = 30 ∨ N = 90) :
    (dailyRevenue orders now N).length = N ∧
    (dailyRevenue orders now N).map (fun e => e.1) =
      (List.range N).map (fun (i : ℕ) => now - ((N : ℤ) - 1) + (i : ℤ)) ∧
    ∀ e ∈ dailyRevenue orders now N,
      (∀ o ∈ orders, now - N ≤ o.orderDate →
        dayLabel o.orderDate ≠ dayLabel e.1) →
      e.2 = ⟨0, 0⟩ := by
  have hfold :
      (orders.filter (fun o => decide (now - N ≤ o.orderDate))).foldl addOrder
        (initDaily now N) =
      ((List.range N).map (fun (i : ℕ) => now - (i : ℤ))).map (fun d => (d,
        (orders.filter (fun o => decide (now - N ≤ o.orderDate))).foldl
          (fun b o =>
            if dayLabel o.orderDate = dayLabel d then bumpBucket o b else b)
          (⟨0, 0⟩ : Bucket))) := by
    rw [initDaily_eq_map]
    exact foldl_addOrder_map _ _ _
  refine ⟨?_, ?_, ?_⟩
  · rw [dailyRevenue, hfold]
    simp
  · rw [dailyRevenue, hfold, ← List.map_reverse, List.map_map, ← reverse_day_keys]
    simp [Function.comp]
  · intro e he hnone
    rw [dailyRevenue, hfold, List.mem_reverse] at he
    rcases List.mem_map.mp he with ⟨d, _, rfl⟩
    simp only
    refine foldl_bump_of_no_match _ _ _ (fun o ho => ?_)
    rcases List.mem_filter.mp ho with ⟨hmem, hcond⟩
    exact hnone o hmem (of_decide_eq_true hcond)

/-- Witness for the amended C8 at the 7-day window with no orders. -/
theorem daily_series_shape_witness :
    (dailyRevenue [] 0 7).length = 7 ∧
    (dailyRevenue [] 0 7).map (fun e => e.1) =
      (List.range 7).map (fun (i : ℕ) => 0 - ((7 : ℤ) - 1) + (i : ℤ)) ∧
    ∀ e ∈ dailyRevenue [] 0 7,
      (∀ o ∈ ([] : List AOrder), 0 - 7 ≤ o.orderDate →
        dayLabel o.orderDate ≠ dayLabel e.1) →
      e.2 = ⟨0, 0⟩ := by
  exact daily_series_shape [] 0 7 (Or.inl rfl)

/-- C9.  An empty column selection is rejected with no export produced;
a non-empty selection of N columns yields an export whose header row is
exactly the N selected columns in order, and each data row carries exactly
N values, the selected fields in the same order. -/
theorem export_columns_shape :
    (∀ format, handleExport format [] = none) ∧
    (∀ format (cols : List String) (rows : List (String → String)),
      cols ≠ [] →
      ∃ call, handleExport format cols = some call ∧
        (exportTable call.columns rows).head? = some cols ∧
        ∀ dr ∈ (exportTable call.columns rows).tail,
          dr.length = cols.length ∧ ∃ r ∈ rows, dr = cols.map r) := by
  refine ⟨fun format => rfl, ?_⟩
  intro format cols rows hne
  refine ⟨⟨format, cols⟩, ?_, rfl, ?_⟩
  · simp [handleExport, hne]
  · intro dr hdr
    simp only [exportTable, List.tail_cons] at hdr
    rcases List.mem_map.mp hdr with ⟨r, hr, rfl⟩
    exact ⟨by simp, r, hr, rfl⟩

/-- Witness for C9 with one selected column and one row. -/
theorem export_columns_shape_witness :
    handleExport "csv" [] = none ∧
    ∃ call, handleExport "csv" ["orderId"] = some call ∧
      (exportTable call.columns [fun _ => "ORD-001"]).head? =
        some ["orderId"] ∧
      ∀ dr ∈ (exportTable call.columns [fun _ => "ORD-001"]).tail,
        dr.length = (["orderId"] : List String).length ∧
        ∃ r ∈ [fun _ => "ORD-001"], dr = (["orderId"] : List String).map r := by
  exact ⟨export_columns_shape.1 "csv",
    export_columns_shape.2 "csv" ["orderId"] [fun _ => "ORD-001"]
      (by decide)⟩

theorem decDigitsAux_lt_ten (fuel n : ℕ) :
    ∀ d ∈ decDigitsAux fuel n, d < 10 := by
  induction fuel generalizing n with
  | zero => intro d hd; simp [decDigitsAux] at hd
  | succ fuel ih =>
      intro d hd
      cases n with
      | zero => simp [decDigitsAux] at hd
      | succ m =>
          rw [decDigitsAux] at hd
          rcases List.mem_cons.mp hd with h | h
          · subst h; exact Nat.mod_lt _ (by norm_num)
          · exact ih _ d h

theorem ofDigits_decDigitsAux (fuel n : ℕ) (h : n ≤ fuel) :
    Nat.ofDigits 10 (decDigitsAux fuel n) = n := by
  induction fuel generalizing n with
  | zero =>
      interval_cases n
      simp [decDigitsAux, Nat.ofDigits]
  | succ fuel ih =>
      cases n with
      | zero => simp [decDigitsAux, Nat.ofDigits]
      | succ m =>
          rw [decDigitsAux, Nat.ofDigits_cons]
          have hdiv : (m + 1) / 10 ≤ fuel := by
            have := Nat.div_lt_self (Nat.succ_pos m) (by norm_num : 1 < 10)
            omega
          rw [ih _ hdiv]
          omega

theorem charVal_digitChar (d : ℕ) (hd : d < 10) :
    charVal (Char.ofNat (48 + d)) = d := by
  interval_cases d <;> decide

theorem recoverNat_pad3_decChars (n : ℕ) :
    recoverNat (pad3 (decChars n)) = n := by
  unfold recoverNat pad3 decChars
  rw [List.reverse_append, List.reverse_replicate, ← List.map_reverse,
    List.reverse_reverse, List.map_append, List.map_map, List.map_replicate]
  have h1 : (decDigits n).map (charVal ∘ fun d => Char.ofNat (48 + d)) =
      decDigits n := by
    exact (List.map_congr_left (fun d hd => charVal_digitChar d
      (decDigitsAux_lt_ten n n d hd))).trans (List.map_id _)
  have h2 : charVal '0' = 0 := rfl
  rw [h1, h2, Nat.ofDigits_append]
  have h3 : ∀ k, Nat.ofDigits 10 (List.replicate k 0) = 0 := by
    intro k
    induction k with
    | zero => simp [Nat.ofDigits]
    | succ k ih => simp [List.replicate_succ, Nat.ofDigits_cons, ih]
  rw [h3]
  simpa using ofDigits_decDigitsAux n n le_rfl

theorem mkOrderId_inj (a b : ℕ) (h : mkOrderId a = mkOrderId b) : a = b := by
  have hdata : 'O' :: 'R' :: 'D' :: '-' :: pad3 (decChars a) =
      'O' :: 'R' :: 'D' :: '-' :: pad3 (decChars b) :=
    congrArg String.data h
  have hpad : pad3 (decChars a) = pad3 (decChars b) := by
    simpa using hdata
  calc a = recoverNat (pad3 (decChars a)) := (recoverNat_pad3_decChars a).symm
    _ = recoverNat (pad3 (decChars b)) := by rw [hpad]
    _ = b := recoverNat_pad3_decChars b

/-- Counterexample to C10 as stated: create two orders (ids `ORD-001`,
`ORD-002`), delete `ORD-001`, then create again — the in-memory count is
back to 1, so the new order is assigned `ORD-002`, which is NOT distinct
from the id of the still-existing second order. -/
theorem order_id_reused_after_delete :
    createStep (deleteStep "ORD-001" (createStep (createStep []))) =
      ["ORD-002", "ORD-002"] ∧
    ¬ (createStep (deleteStep "ORD-001"
        (createStep (createStep [])))).Nodup := by
  constructor <;> decide

theorem mem_ordersAfter (n : ℕ) (x : String) (hx : x ∈ ordersAfter n) :
    ∃ k, 1 ≤ k ∧ k ≤ n ∧ x = mkOrderId k := by
  induction n with
  | zero => simp [ordersAfter] at hx
  | succ n ih =>
      have hlen : (ordersAfter n).length = n := by
        clear hx ih
        induction n with
        | zero => rfl
        | succ n ih => simp [ordersAfter, createStep, ih]
      rw [ordersAfter, createStep, hlen] at hx
      rcases List.mem_cons.mp hx with h | h
      · exact ⟨n + 1, by omega, by omega, h⟩
      · rcases ih h with ⟨k, h1, h2, h3⟩
        exact ⟨k, h1, by omega, h3⟩

/-- C10 (amended).  `createOrder` assigns `ORD-(count+1)` (zero-padded to
at least three digits) from the current in-memory order count; in any
history of creations with no deletions the assigned ids are pairwise
distinct.  (After a deletion the count shrinks and an existing id can be
reassigned, per the counterexample.) -/
theorem order_ids_distinct_without_deletes (n : ℕ) :
    (ordersAfter n).Nodup := by
  induction n with
  | zero => exact List.nodup_nil
  | succ n ih =>
      have hlen : (ordersAfter n).length = n := by
        clear ih
        induction n with
        | zero => rfl
        | succ n ih => simp [ordersAfter, createStep, ih]
      rw [ordersAfter, createStep, hlen]
      refine List.Nodup.cons (fun hmem => ?_) ih
      rcases mem_ordersAfter n _ hmem with ⟨k, h1, h2, h3⟩
      have := mkOrderId_inj _ _ h3
      omega
